import Mathlib

/-!
Shallow embedding of `src/services/keyService/key.service.ts` (repository
`mbastard42/angular-tools`).  The file holds two variants of the class
`KeyService`, separated by a document marker; the first variant (lines 1-213)
carries the capture overlay (`usingKeyboard` / `quittingKeyboard`), the second
(lines 214-412) is an earlier design with stricter `setKey` validation and a
different `delKey` branch order.  Both are embedded below: variant 1 in
namespace `KeyService`, variant 2 in namespace `KeyService2`, over a shared
state type.

Modelling decisions, all taken from the source:
* TypeScript `Id`, `Key`, `BehaviorId` are `string | undefined`; they are
  embedded as `Option String`.  JavaScript truthiness of such a value
  (`if (id)`) is `truthyS`: `undefined` and the empty string are falsy.
* A stored `Values` tuple is `[key, block ?? false, delay ?? 0, behaviorMap]`,
  so `block` and `delay` are never `undefined` once stored; the embedded
  `Binding` therefore has plain `Bool` / `Int` fields for them, and `key`
  stays `Option String` (a binding created by id alone has `key = undefined`).
* `Map` iteration order is insertion order, and keys are unique, so the tables
  are association lists; insertion appends, `Map.delete` removes the single
  entry with the given key (embedded as a filter, identical on lists whose
  keys are unique, which every `Map` guarantees).
* Behavior callbacks `() => void` are opaque: they are embedded as `Nat`
  tokens, and `press` returns the list of tokens it would invoke instead of
  running them.
* The `setTimeout` closure in `press` captures the *values tuple* of the
  binding, not its id.  To embed that aliasing, every stored binding carries a
  unique allocation reference (`Nat`, drawn from `nextRef`); a scheduled timer
  records the captured tuple's reference, and `fireTimer` writes `block :=
  false` through that reference: entries no longer in the table (the tuple the
  closure still holds after a `Map.delete`) are unaffected, exactly as the
  mutation of a detached array is unobservable through the live `Map`.
* `press` dereferences `actualValues!` even when `getValues` returned
  `undefined` (a `TypeError` at runtime); the embedded `press` returns
  `Option`, with `none` for that crash.
* `console.error` calls are embedded as the `Option String` component of the
  return value of `setKey` / `delKey` (the message reported, `none` on a
  silent run).
-/

namespace KeyModel

/-- JavaScript truthiness of a `string | undefined` value: `undefined` and
`""` are falsy. -/
def truthyS : Option String → Bool
  | none => false
  | some s => !(s == "")

/-- Opaque token standing for a `() => void` callback. -/
abbrev BehaviorTok := Nat

/-- One entry of a behavior table: the tuple `[mute, behavior]`. -/
structure BehaviorEntry where
  mute : Bool
  callback : BehaviorTok
deriving Repr, DecidableEq

/-- The stored `Values` tuple `[key, block, delay, behaviorMap]` of one
binding.  `block` and `delay` are non-optional because every stored tuple is
created as `[key, block ?? false, delay ?? 0, new Map()]`. -/
structure Binding where
  key : Option String
  block : Bool
  delay : Int
  behaviors : List (String × BehaviorEntry)
deriving Repr, DecidableEq

/-- The mutable fields of a `KeyService` instance.  `keyMap` entries are
`(id, ref, values)` where `ref` is the allocation reference of the values
tuple (see the header comment); `timers` records the debounce timers scheduled
by `press` as `(captured tuple reference, delay)`. -/
structure State where
  keyMap : List (String × Nat × Binding)
  nextRef : Nat
  pressedKeys : List String
  timers : List (Nat × Int)
  useKeyboard : Bool
  keyboardInput : String
deriving Repr, DecidableEq

/-- The freshly constructed service: empty tables, capture mode off. -/
def emptyState : State :=
  { keyMap := [], nextRef := 0, pressedKeys := [], timers := [],
    useKeyboard := false, keyboardInput := "" }

/-- The argument record of `setKey`, fields in source order. -/
structure SetOpts where
  id : Option String
  key : Option String
  block : Option Bool
  delay : Option Int
  behaviorId : Option String
  mute : Option Bool
  behavior : Option BehaviorTok
deriving Repr, DecidableEq

/-- The argument record of `delKey`. -/
structure DelOpts where
  id : Option String
  key : Option String
  behaviorId : Option String
deriving Repr, DecidableEq

/-- `SetOpts` with every field absent. -/
def noSet : SetOpts := ⟨none, none, none, none, none, none, none⟩

/-- `this.keyMap.get(i)` together with the tuple's allocation reference. -/
def lookupId (s : State) (i : String) : Option (Nat × Binding) :=
  (s.keyMap.find? (fun e => e.1 == i)).map (fun e => e.2)

/-- `this.keyMap.has(id)` for an `Id` (`string | undefined`).  A live map
never holds the key `undefined` (every insertion site guards the id), so
`has(undefined)` is `false`. -/
def hasId (s : State) : Option String → Bool
  | none => false
  | some i => (lookupId s i).isSome

/-- `getIdByKey`: linear scan for the first entry whose stored `key` is
`===`-equal to the argument (`undefined === undefined` holds, so scanning
with `undefined` finds a binding created without a key). -/
def getIdByKey (s : State) (key : Option String) : Option String :=
  (s.keyMap.find? (fun e => e.2.2.key == key)).map (fun e => e.1)

/-- `getValues`: resolve by truthy `id` first, then by truthy `key` via
`getIdByKey`; `undefined` when neither resolves. -/
def getValues (s : State) (id key : Option String) : Option Binding :=
  if !truthyS id && !truthyS key then none
  else if truthyS id && hasId s id then
    match id with
    | some i => (lookupId s i).map (fun rb => rb.2)
    | none => none
  else if truthyS key && hasId s (getIdByKey s key) then
    match getIdByKey s key with
    | some i => (lookupId s i).map (fun rb => rb.2)
    | none => none
  else none

/-- `getBehaviorMap`: same branch structure as `getValues`, projecting the
behavior table. -/
def getBehaviorMap (s : State) (id key : Option String) : Option (List (String × BehaviorEntry)) :=
  if !truthyS id && !truthyS key then none
  else if truthyS id && hasId s id then (getValues s id none).map (fun b => b.behaviors)
  else if truthyS key && hasId s (getIdByKey s key) then (getValues s none key).map (fun b => b.behaviors)
  else none

/-- In-place mutation of the values tuple stored under id `i` (JavaScript
mutates the array object; the embedding rewrites the entry, keeping its
reference). -/
def updateBinding (s : State) (i : String) (f : Binding → Binding) : State :=
  { s with keyMap := s.keyMap.map (fun e => if e.1 == i then (e.1, e.2.1, f e.2.2) else e) }

/-- `values![Select.mute] = mute` applied to every entry of a behavior table
(the bulk-mute loop body). -/
def muteAllB (m : Bool) (l : List (String × BehaviorEntry)) : List (String × BehaviorEntry) :=
  l.map (fun e => (e.1, { e.2 with mute := m }))

/-- The shared body of `setKey` after validation (source lines 64-94 and
272-302 are identical): binding merge-or-insert, behavior merge-or-insert,
bulk mute.  `i` is the resolved `actualId` (always truthy at this point). -/
def setKeyBody (s : State) (o : SetOpts) (i : String) : State :=
  let s1 : State :=
    if hasId s (some i) then
      updateBinding s i (fun b =>
        { b with
          key := if truthyS o.key then o.key else b.key
          block := match o.block with | some v => v | none => b.block
          delay := match o.delay with
                   | some d => if d ≠ 0 then d else b.delay
                   | none => b.delay })
    else
      { s with
        keyMap := s.keyMap ++ [(i, s.nextRef,
          { key := o.key, block := o.block.getD false, delay := o.delay.getD 0,
            behaviors := [] })]
        nextRef := s.nextRef + 1 }
  let bmHas : Bool :=
    match o.behaviorId with
    | none => false
    | some bid => ((lookupId s1 i).map (fun rb => rb.2.behaviors.any (fun e => e.1 == bid))).getD false
  let s2 : State :=
    if bmHas then
      updateBinding s1 i (fun b =>
        { b with behaviors := b.behaviors.map (fun e =>
            if some e.1 == o.behaviorId then
              (e.1,
               { mute := match o.mute with | some v => v | none => e.2.mute
                 callback := match o.behavior with | some f => f | none => e.2.callback })
            else e) })
    else
      match o.behavior, o.behaviorId with
      | some f, some bid =>
        updateBinding s1 i (fun b =>
          { b with behaviors := b.behaviors ++ [(bid, { mute := o.mute.getD false, callback := f })] })
      | _, _ => s1
  if o.mute.isSome && !truthyS o.behaviorId then
    updateBinding s2 i (fun b => { b with behaviors := muteAllB (o.mute.getD false) b.behaviors })
  else s2

end KeyModel

namespace KeyService

open KeyModel

/-- Variant 1 `setKey` without its global-mute first branch: the validation
chain of source lines 56-63 followed by the shared body. -/
def setKeyRest (s : State) (o : SetOpts) : State × Option String :=
  if !truthyS o.id && !truthyS o.key then
    (s, some "KeyService.setKey: id and key are undefined")
  else if !truthyS o.id && truthyS o.key && !hasId s (getIdByKey s o.key) then
    (s, some "KeyService.setKey: key doesn't exist")
  else if o.behavior.isSome && !truthyS o.behaviorId then
    (s, some "KeyService.setKey: behavior is defined but behaviorId is undefined")
  else if truthyS o.behaviorId && o.behavior.isNone && o.mute.isNone then
    (s, some "KeyService.setKey: behaviorId is defined but behavior and mute are undefined")
  else
    match (if truthyS o.id then o.id else getIdByKey s o.key) with
    | none => (s, none)
    | some i => (setKeyBody s o i, none)

/-- Variant 1 `setKey`.  Its first branch (`!id && !key && mute !== undefined`)
recursively calls `setKey({id, mute})` for every id of the table.  Those
recursive calls carry the id of an existing entry; every id ever inserted is
truthy, so each such call falls through the global branch into the rest of the
chain, and the recursion is embedded as a fold of `setKeyRest` over the
table's id list (the recursive calls mutate only tuple fields, never the key
set, so iterating the precomputed id list equals the source's live
iteration). -/
def setKey (s : State) (o : SetOpts) : State × Option String :=
  if !truthyS o.id && !truthyS o.key && o.mute.isSome then
    ((s.keyMap.map (fun e => e.1)).foldl
      (fun st i => (setKeyRest st ⟨some i, none, none, none, none, o.mute, none⟩).1) s,
     none)
  else setKeyRest s o

/-- Variant 1 `delKey` (source lines 96-122). -/
def delKey (s : State) (o : DelOpts) : State × Option String :=
  if !truthyS o.id && !truthyS o.key then
    (s, some "KeyService.delKey: id and key are undefined")
  else if truthyS o.id && !hasId s o.id then
    (s, some "KeyService.delKey: id doesn't exist")
  else if !truthyS o.id && truthyS o.key && !truthyS (getIdByKey s o.key) then
    (s, some "KeyService.delKey: key doesn't exist")
  else
    match (if truthyS o.id then o.id else getIdByKey s o.key) with
    | none => (s, none)
    | some i =>
      if hasId s (some i) then
        if truthyS (some i) && !truthyS o.behaviorId then
          ({ s with keyMap := s.keyMap.filter (fun e => !(e.1 == i)) }, none)
        else
          let bmHas : Bool :=
            ((lookupId s i).map (fun rb =>
              match o.behaviorId with
              | none => false
              | some bid => rb.2.behaviors.any (fun e => e.1 == bid))).getD false
          if truthyS o.behaviorId && bmHas then
            (updateBinding s i (fun b =>
              { b with behaviors := b.behaviors.filter (fun e => !(some e.1 == o.behaviorId)) }), none)
          else if !bmHas then
            (s, some "KeyService.delKey: behaviorId doesn't exist")
          else
            ({ s with keyMap := s.keyMap.filter (fun e => !(e.1 == i)) }, none)
      else (s, none)

/-- Variant 1 `press` (source lines 164-192).  Returns `none` for the
`TypeError` thrown by `actualValues![Select.block]` when `getValues` returned
`undefined` (a truthy id absent from the table); otherwise `some` of the new
state and the tokens of the callbacks invoked, in table order.  A scheduled
debounce timer is appended to `timers` as the captured tuple's reference with
its delay. -/
def press (s : State) (id key : Option String) : Option (State × List BehaviorTok) :=
  let actualId : Option String := if truthyS id then id else getIdByKey s key
  if truthyS actualId then
    match actualId with
    | none => some (s, [])
    | some i =>
      match lookupId s i with
      | none => none
      | some (r, b) =>
        if !b.block then
          let fired := (b.behaviors.filter (fun e => !e.2.mute)).map (fun e => e.2.callback)
          let s1 : State :=
            if b.delay ≠ 0 ∧ 0 ≤ b.delay then
              { (updateBinding s i (fun bb => { bb with block := true })) with
                timers := s.timers ++ [(r, b.delay)] }
            else s
          let s2 : State :=
            if b.delay ≠ 0 ∧ b.delay < 0 then
              updateBinding s1 i (fun bb => { bb with block := true })
            else s1
          some (s2, fired)
        else some (s, [])
  else some (s, [])

/-- The key-up subscriber (source lines 40-44; lines 244-248 of variant 2 are
identical).  The source condition is
`keyMap.has(getIdByKey(k)) && (getValues({key:k})![delay] ?? 0 < 0)`; by
operator precedence `?? 0 < 0` is `?? (0 < 0)`, and a stored delay is never
`undefined`, so the right conjunct is the JavaScript truthiness of the delay:
`delay ≠ 0`. -/
def keyup (s : State) (k : String) : State :=
  let s0 := { s with pressedKeys := s.pressedKeys.erase k }
  match getIdByKey s0 (some k) with
  | none => s0
  | some i =>
    if hasId s0 (some i) then
      match lookupId s0 i with
      | none => s0
      | some (_, b) =>
        if b.delay ≠ 0 then updateBinding s0 i (fun bb => { bb with block := false })
        else s0
    else s0

/-- The firing of a debounce timer scheduled by `press`: the closure writes
`block := false` through the values tuple it captured.  Only entries still
holding that tuple (same reference) observe the write; a tuple detached by
`Map.delete` is mutated invisibly. -/
def fireTimer (s : State) (r : Nat) : State :=
  { s with keyMap := s.keyMap.map (fun e =>
      if e.2.1 == r then (e.1, e.2.1, { e.2.2 with block := false }) else e) }

/-- Token standing for the closure `() => this.quittingKeyboard()` that
`usingKeyboard` registers. -/
def QUIT_TOKEN : BehaviorTok := 0

/-- `usingKeyboard` (source lines 194-199). -/
def usingKeyboard (s : State) (quit : Option String) : State :=
  let s1 := (setKey s ⟨none, none, none, none, none, some true, none⟩).1
  let s2 := (setKey s1 ⟨some "quit", quit, none, none, some "quittingKeyboard", none, some QUIT_TOKEN⟩).1
  { s2 with useKeyboard := true }

/-- `quittingKeyboard` (source lines 200-206). -/
def quittingKeyboard (s : State) : State :=
  let s1 := (setKey s ⟨none, none, none, none, none, some false, none⟩).1
  let s2 := (delKey s1 ⟨some "quit", none, some "quittingKeyboard"⟩).1
  { s2 with useKeyboard := false, keyboardInput := "" }

end KeyService

namespace KeyService2

open KeyModel

/-- Variant 2 `setKey` (source lines 258-303): no global-mute branch, and an
additional validation `mute && !behaviorId` (truthiness of a `boolean |
undefined`: only `mute === true` trips it). -/
def setKey (s : State) (o : SetOpts) : State × Option String :=
  if !truthyS o.id && !truthyS o.key then
    (s, some "KeyService.setKey: id and key are undefined")
  else if !truthyS o.id && truthyS o.key && !hasId s (getIdByKey s o.key) then
    (s, some "KeyService.setKey: key doesn't exist")
  else if o.behavior.isSome && !truthyS o.behaviorId then
    (s, some "KeyService.setKey: behavior is defined but behaviorId is undefined")
  else if o.mute.getD false && !truthyS o.behaviorId then
    (s, some "KeyService.setKey: mute is defined but behaviorId is undefined")
  else if truthyS o.behaviorId && o.behavior.isNone && o.mute.isNone then
    (s, some "KeyService.setKey: behaviorId is defined but behavior and mute are undefined")
  else
    match (if truthyS o.id then o.id else getIdByKey s o.key) with
    | none => (s, none)
    | some i => (setKeyBody s o i, none)

/-- Variant 2 `delKey` (source lines 307-331): the branch deleting the whole
binding is the final `else`, reachable only when the behavior table holds the
falsy key `behaviorId` — so with `behaviorId` omitted the chain reports
"behaviorId doesn't exist" instead of deleting the binding. -/
def delKey (s : State) (o : DelOpts) : State × Option String :=
  if !truthyS o.id && !truthyS o.key then
    (s, some "KeyService.delKey: id and key are undefined")
  else if truthyS o.id && !hasId s o.id then
    (s, some "KeyService.delKey: id doesn't exist")
  else if !truthyS o.id && truthyS o.key && !truthyS (getIdByKey s o.key) then
    (s, some "KeyService.delKey: key doesn't exist")
  else
    match (if truthyS o.id then o.id else getIdByKey s o.key) with
    | none => (s, none)
    | some i =>
      if hasId s (some i) then
        let bmHas : Bool :=
          ((lookupId s i).map (fun rb =>
            match o.behaviorId with
            | none => false
            | some bid => rb.2.behaviors.any (fun e => e.1 == bid))).getD false
        if truthyS o.behaviorId && bmHas then
          (updateBinding s i (fun b =>
            { b with behaviors := b.behaviors.filter (fun e => !(some e.1 == o.behaviorId)) }), none)
        else if !bmHas then
          (s, some "KeyService.delKey: behaviorId doesn't exist")
        else
          ({ s with keyMap := s.keyMap.filter (fun e => !(e.1 == i)) }, none)
      else (s, none)

end KeyService2

/-! ## Sample states used by concrete evaluations -/

namespace KeyModel

/-- A registry holding one binding `a` on key `x` in debounce mode
(`delay = 100`) whose `block` flag is set (as it is right after a press). -/
def sampleDebounce : State :=
  { keyMap := [("a", 0, { key := some "x", block := true, delay := 100, behaviors := [] })],
    nextRef := 1, pressedKeys := [], timers := [], useKeyboard := false, keyboardInput := "" }

/-- A registry holding one binding `a` on key `x` (`delay = 0`) with a single
unmuted behavior `b1` (callback token `5`). -/
def sampleOneBehavior : State :=
  { keyMap := [("a", 0, { key := some "x", block := false, delay := 0,
                          behaviors := [("b1", { mute := false, callback := 5 })] })],
    nextRef := 1, pressedKeys := [], timers := [], useKeyboard := false, keyboardInput := "" }

end KeyModel

open KeyModel

/-- **C1** (code bug).  The key-up subscriber's guard is
`getValues({key})![delay] ?? 0 < 0`, which by operator precedence is
`delay ?? (0 < 0)`, i.e. the truthiness of the stored delay: any *nonzero*
delay — not only the hold mode `delay < 0` — lets key-up clear `block`.
Evaluation at the failing input: a binding in debounce mode (`delay = 100`)
with `block = true` has its `block` cleared by key-up, where the claim says
key-up must leave it unchanged and only the scheduled timer may clear it. -/
theorem keyup_clears_block_in_debounce_mode :
    KeyService.keyup sampleDebounce "x" =
      { sampleDebounce with
        keyMap := [("a", 0, { key := some "x", block := false, delay := 100, behaviors := [] })] } := by
  decide

/-- **C3** (code bug).  `press({id})` with a (truthy) id absent from the table
resolves `actualId` to that id, so `getValues` returns `undefined` and the
guard `!actualValues![Select.block]` dereferences `undefined` — a `TypeError`,
embedded as `none`.  The claim says such a call is a crash-free no-op. -/
theorem press_absent_id_crashes :
    KeyService.press emptyState (some "a") none = none := by
  decide

/-- **C6** (code bug).  Variant 2's `delKey` comment promises "delete the key
with the id or the key if it exists", but with `behaviorId` omitted the chain
hits `!getBehaviorMap(...)?.has(undefined)` (true), reports
"behaviorId doesn't exist" and deletes nothing — the whole-binding deletion
branch is unreachable.  Evaluation at the failing input: a registry with
binding `a`, `delKey({id:"a"})`. -/
theorem delKey2_omitted_behaviorId_noop :
    KeyService2.delKey sampleOneBehavior ⟨some "a", none, none⟩ =
      (sampleOneBehavior, some "KeyService.delKey: behaviorId doesn't exist") := by
  decide

/-- **C5** (counterexample).  The options record
`{mute: true, behavior: 9}` (no `id`, no `key`, no `behaviorId`) meets the
claim's third validation condition (`behavior` supplied without `behaviorId`),
yet variant 1's `setKey` takes its global-mute first branch: it reports no
error and mutates the behavior table (behavior `b1` becomes muted). -/
theorem setKey_globalMute_preempts_validation_cex :
    KeyService.setKey sampleOneBehavior ⟨none, none, none, none, none, some true, some 9⟩ =
      ({ sampleOneBehavior with
         keyMap := [("a", 0, { key := some "x", block := false, delay := 0,
                               behaviors := [("b1", { mute := true, callback := 5 })] })] },
       none) ∧
    KeyService.setKey sampleOneBehavior ⟨none, none, none, none, none, some true, some 9⟩ ≠
      (sampleOneBehavior, some "KeyService.setKey: behavior is defined but behaviorId is undefined") := by
  constructor
  · decide
  · decide

/-- **C7** (counterexample).  Variant 2's `setKey` validates
`mute && !behaviorId` and rejects the call, so supplying `mute = true` with
`behaviorId` absent on an existing binding reports an error and mutes nothing,
where the claim says it must set the mute flag of every behavior of the
binding. -/
theorem setKey2_bulk_mute_rejected_cex :
    KeyService2.setKey sampleOneBehavior ⟨some "a", none, none, none, none, some true, none⟩ =
      (sampleOneBehavior, some "KeyService.setKey: mute is defined but behaviorId is undefined") := by
  decide

/-- **C8** (counterexample).  After `usingKeyboard("Escape")` on a fresh
service, firing the quit behavior (`quittingKeyboard`) removes only the
behavior entry `quittingKeyboard`: the binding `quit`, still bound to
`Escape`, remains in the key table, where the claim says the exit sequence
deletes the quit Binding from the Key Table. -/
theorem quit_binding_survives_exit_cex :
    KeyService.quittingKeyboard (KeyService.usingKeyboard emptyState (some "Escape")) =
      { keyMap := [("quit", 0, { key := some "Escape", block := false, delay := 0, behaviors := [] })],
        nextRef := 1, pressedKeys := [], timers := [], useKeyboard := false, keyboardInput := "" } := by
  decide

/-! ## C2: the key-uniqueness invariant over call sequences -/

namespace KeyModel

/-- One API call of the mutating registry interface (variant 1). -/
inductive Call where
  | setK (o : SetOpts)
  | delK (o : DelOpts)
deriving Repr, DecidableEq

/-- Execute one call, discarding the diagnostic message. -/
def runCall (s : State) : Call → State
  | Call.setK o => (KeyService.setKey s o).1
  | Call.delK o => (KeyService.delKey s o).1

/-- Execute a call sequence left to right. -/
def runCalls (s : State) (cs : List Call) : State :=
  cs.foldl runCall s

/-- The number of table entries whose stored physical key equals `k`. -/
def keyCount (s : State) (k : String) : Nat :=
  s.keyMap.countP (fun e => e.2.2.key == some k)

/-- The claim's invariant: at most one binding per non-empty physical key. -/
def UniqKeys (s : State) : Prop :=
  ∀ k : String, k ≠ "" → keyCount s k ≤ 1

/-- A call that does not bind an already-bound key under a different explicit
id: this is the (only) restriction the counterexample forces on C2. -/
def goodCall (s : State) : Call → Bool
  | Call.setK o =>
    !(truthyS o.id && truthyS o.key &&
      s.keyMap.any (fun e => e.2.2.key == o.key && !(some e.1 == o.id)))
  | Call.delK _ => true

/-- Every call of the sequence is good in the state where it executes. -/
def goodCalls : State → List Call → Bool
  | _, [] => true
  | s, c :: cs => goodCall s c && goodCalls (runCall s c) cs

/-- Ids of the table are pairwise distinct (holds in every reachable state:
the table embeds a `Map`). -/
def IdsNodup (s : State) : Prop :=
  (s.keyMap.map (fun e => e.1)).Nodup

end KeyModel

/-- **C2** (counterexample).  The uniqueness of physical keys is *not*
enforced when `setKey` is given an explicit fresh id together with an
already-bound key: after `setKey({id:"a", key:"x"})` then
`setKey({id:"b", key:"x"})` (a sequence from the empty registry), two bindings
carry the key `"x"`, refuting the claim's "at most one Binding" for the
non-empty key `"x"`. -/
theorem setKey_duplicate_key_cex :
    keyCount
      (runCalls emptyState
        [Call.setK ⟨some "a", some "x", none, none, none, none, none⟩,
         Call.setK ⟨some "b", some "x", none, none, none, none, none⟩]) "x" = 2 := by
  decide

/-! ## C5: validation failures are reported no-ops -/

namespace KeyModel

/-- If any condition of variant 1's validation chain holds, `setKeyRest`
reports an error and returns the state unchanged (the chain fires at its
first true condition, and every validation branch is an error no-op). -/
theorem setKeyRest_validation (s : State) (o : SetOpts)
    (h : ((!truthyS o.id && !truthyS o.key) ||
          (!truthyS o.id && truthyS o.key && !hasId s (getIdByKey s o.key)) ||
          (o.behavior.isSome && !truthyS o.behaviorId) ||
          (truthyS o.behaviorId && o.behavior.isNone && o.mute.isNone)) = true) :
    (KeyService.setKeyRest s o).1 = s ∧ ((KeyService.setKeyRest s o).2).isSome = true := by
  unfold KeyService.setKeyRest
  split
  · exact ⟨rfl, rfl⟩
  · split
    · exact ⟨rfl, rfl⟩
    · split
      · exact ⟨rfl, rfl⟩
      · split
        · exact ⟨rfl, rfl⟩
        · exfalso
          simp only [Bool.or_eq_true, Bool.and_eq_true, Bool.not_eq_true'] at *
          tauto

/-- The same statement for variant 2's `setKey` (its chain adds the
`mute && !behaviorId` condition; any true condition yields an error
no-op). -/
theorem setKey2_validation (s : State) (o : SetOpts)
    (h : ((!truthyS o.id && !truthyS o.key) ||
          (!truthyS o.id && truthyS o.key && !hasId s (getIdByKey s o.key)) ||
          (o.behavior.isSome && !truthyS o.behaviorId) ||
          (o.mute.getD false && !truthyS o.behaviorId) ||
          (truthyS o.behaviorId && o.behavior.isNone && o.mute.isNone)) = true) :
    (KeyService2.setKey s o).1 = s ∧ ((KeyService2.setKey s o).2).isSome = true := by
  unfold KeyService2.setKey
  split
  · exact ⟨rfl, rfl⟩
  · split
    · exact ⟨rfl, rfl⟩
    · split
      · exact ⟨rfl, rfl⟩
      · split
        · exact ⟨rfl, rfl⟩
        · split
          · exact ⟨rfl, rfl⟩
          · exfalso
            simp only [Bool.or_eq_true, Bool.and_eq_true, Bool.not_eq_true'] at *
            tauto

end KeyModel

/-- **C5** (amended).  For variant 1 the claim holds with one carve-out forced
by the counterexample: the condition "`behavior` supplied without
`behaviorId`" is preempted by the global-mute branch when `id` and `key` are
both absent (or empty) and `mute` is supplied — that branch mutates instead
of reporting.  Outside that overlap, each of the four validation conditions
makes `setKey` report an error and leave every table unchanged; for variant 2
the four conditions hold verbatim. -/
theorem setKey_validation_noop (s : State) (o : SetOpts) :
    (((o.id = none ∧ o.key = none ∧ o.mute = none) ∨
      (o.id = none ∧ truthyS o.key = true ∧ getIdByKey s o.key = none) ∨
      (o.behavior.isSome = true ∧ o.behaviorId = none ∧
        ¬(truthyS o.id = false ∧ truthyS o.key = false ∧ o.mute.isSome = true)) ∨
      (truthyS o.behaviorId = true ∧ o.behavior = none ∧ o.mute = none)) →
      (KeyService.setKey s o).1 = s ∧ ((KeyService.setKey s o).2).isSome = true) ∧
    (((o.id = none ∧ o.key = none) ∨
      (o.id = none ∧ truthyS o.key = true ∧ getIdByKey s o.key = none) ∨
      (o.behavior.isSome = true ∧ o.behaviorId = none) ∨
      (truthyS o.behaviorId = true ∧ o.behavior = none ∧ o.mute = none)) →
      (KeyService2.setKey s o).1 = s ∧ ((KeyService2.setKey s o).2).isSome = true) := by
  constructor
  · rintro (⟨h1, h2, h3⟩ | ⟨h1, h2, h3⟩ | ⟨h1, h2, h3⟩ | ⟨h1, h2, h3⟩)
    · have hg : (!truthyS o.id && !truthyS o.key && o.mute.isSome) = false := by
        simp [h1, h2, h3, truthyS]
      rw [KeyService.setKey, hg]
      simp only [Bool.false_eq_true, if_false]
      exact setKeyRest_validation s o (by simp [h1, h2, truthyS])
    · have hg : (!truthyS o.id && !truthyS o.key && o.mute.isSome) = false := by
        simp [h2]
      rw [KeyService.setKey, hg]
      simp only [Bool.false_eq_true, if_false]
      exact setKeyRest_validation s o (by simp [h1, h2, h3, truthyS, hasId])
    · have hg : (!truthyS o.id && !truthyS o.key && o.mute.isSome) = false := by
        cases hid : truthyS o.id
        · cases hk : truthyS o.key
          · cases hm : o.mute.isSome
            · simp [hm]
            · exact absurd ⟨hid, hk, hm⟩ h3
          · simp [hk]
        · simp [hid]
      rw [KeyService.setKey, hg]
      simp only [Bool.false_eq_true, if_false]
      exact setKeyRest_validation s o (by simp [h1, h2, truthyS])
    · have hg : (!truthyS o.id && !truthyS o.key && o.mute.isSome) = false := by
        simp [h3]
      rw [KeyService.setKey, hg]
      simp only [Bool.false_eq_true, if_false]
      exact setKeyRest_validation s o (by simp [h1, h2, h3])
  · rintro (⟨h1, h2⟩ | ⟨h1, h2, h3⟩ | ⟨h1, h2⟩ | ⟨h1, h2, h3⟩)
    · exact setKey2_validation s o (by simp [h1, h2, truthyS])
    · exact setKey2_validation s o (by simp [h1, h2, h3, truthyS, hasId])
    · exact setKey2_validation s o (by simp [h1, h2, truthyS])
    · exact setKey2_validation s o (by simp [h1, h2, h3])

/-- Witness for `setKey_validation_noop`: the empty options record (both `id`
and `key` absent, `mute` absent) on the fresh service. -/
theorem setKey_validation_noop_witness :
    (KeyService.setKey emptyState noSet).1 = emptyState ∧
    ((KeyService.setKey emptyState noSet).2).isSome = true ∧
    (KeyService2.setKey emptyState noSet).1 = emptyState ∧
    ((KeyService2.setKey emptyState noSet).2).isSome = true := by
  have h := setKey_validation_noop emptyState noSet
  have h1 := h.1 (Or.inl ⟨rfl, rfl, rfl⟩)
  have h2 := h.2 (Or.inl ⟨rfl, rfl⟩)
  exact ⟨h1.1, h1.2, h2.1, h2.2⟩

/-! ## C7: bulk and global mute (variant 1) -/

namespace KeyModel

/-- `find?` by id commutes with an entry map that preserves ids. -/
theorem find?_fst_map (l : List (String × Nat × Binding)) (g : String × Nat × Binding → String × Nat × Binding)
    (hg : ∀ e, (g e).1 = e.1) (p : String → Bool) :
    (l.map g).find? (fun e => p e.1) = (l.find? (fun e => p e.1)).map g := by
  rw [List.find?_map]
  have hp : ((fun e => p e.1) ∘ g) = (fun e => p e.1) := by
    funext e
    simp [Function.comp, hg]
  rw [hp]

/-- Updating the binding of one id leaves lookups of every id essentially
unchanged: only the binding of that id is transformed. -/
theorem lookupId_updateBinding (s : State) (i : String) (f : Binding → Binding) (j : String) :
    lookupId (updateBinding s i f) j =
      (lookupId s j).map (fun rb => if j == i then (rb.1, f rb.2) else rb) := by
  unfold lookupId updateBinding
  rw [find?_fst_map _ _ (fun e => by by_cases h : e.1 = i <;> simp [h]) (fun a => a == j)]
  cases hf : s.keyMap.find? (fun e => e.1 == j) with
  | none => simp
  | some e =>
    have he : e.1 = j := by
      have := List.find?_some hf
      exact eq_of_beq this
    subst he
    by_cases h : e.1 = i <;> simp [h]

/-- `updateBinding` preserves the id set. -/
theorem hasId_updateBinding (s : State) (i : String) (f : Binding → Binding) (o : Option String) :
    hasId (updateBinding s i f) o = hasId s o := by
  cases o with
  | none => rfl
  | some j =>
    show (lookupId (updateBinding s i f) j).isSome = (lookupId s j).isSome
    rw [lookupId_updateBinding]
    cases lookupId s j <;> simp

/-- Two successive in-place updates of the same id compose. -/
theorem updateBinding_updateBinding (s : State) (i : String) (f g : Binding → Binding) :
    updateBinding (updateBinding s i f) i g = updateBinding s i (fun b => g (f b)) := by
  unfold updateBinding
  simp only [List.map_map]
  congr 1
  apply List.map_congr_left
  intro e _
  by_cases h : e.1 = i <;> simp [Function.comp, h]

/-- Muting a behavior table twice with the same flag equals muting once. -/
theorem muteAllB_muteAllB (m : Bool) (l : List (String × BehaviorEntry)) :
    muteAllB m (muteAllB m l) = muteAllB m l := by
  unfold muteAllB
  rw [List.map_map]
  rfl

/-- `setKeyBody` for the options `{id, mute}` on a present id is exactly the
bulk-mute of that binding's behavior table. -/
theorem setKeyBody_muteOnly (s : State) (i : String) (m : Bool)
    (hhas : hasId s (some i) = true) :
    setKeyBody s ⟨some i, none, none, none, none, some m, none⟩ i =
      updateBinding s i (fun b => { b with behaviors := muteAllB m b.behaviors }) := by
  unfold setKeyBody
  simp only [hhas, if_true, truthyS, Bool.not_false, Option.isSome_some, Option.getD_some,
    Bool.and_true, Bool.and_self, if_false, Bool.false_eq_true, Option.isSome_none]
  rw [updateBinding_updateBinding]

/-- `setKeyRest` for the options `{id, mute}` on a present, truthy id. -/
theorem setKeyRest_muteOnly (s : State) (i : String) (m : Bool)
    (hi : (i == "") = false) (hhas : hasId s (some i) = true) :
    KeyService.setKeyRest s ⟨some i, none, none, none, none, some m, none⟩ =
      (updateBinding s i (fun b => { b with behaviors := muteAllB m b.behaviors }), none) := by
  unfold KeyService.setKeyRest
  simp only [truthyS, hi, Bool.not_false, Bool.not_true, Bool.false_and, Bool.and_false,
    Bool.false_eq_true, if_false, Option.isSome_none, Option.isSome_some, Bool.true_and,
    Bool.and_true, if_true]
  rw [setKeyBody_muteOnly s i m hhas]

/-- All bindings bulk-muted with `m` (the effect of the global-mute branch). -/
def muteMapAll (m : Bool) (s : State) : State :=
  { s with keyMap := s.keyMap.map (fun e =>
      (e.1, e.2.1, { e.2.2 with behaviors := muteAllB m e.2.2.behaviors })) }

/-- The global-mute fold over any list of present, truthy ids mutes exactly
the bindings of those ids. -/
theorem foldMute (m : Bool) (L : List String) (s : State)
    (h : ∀ i ∈ L, (i == "") = false ∧ hasId s (some i) = true) :
    L.foldl (fun st j => (KeyService.setKeyRest st ⟨some j, none, none, none, none, some m, none⟩).1) s =
      { s with keyMap := s.keyMap.map (fun e =>
          if e.1 ∈ L then (e.1, e.2.1, { e.2.2 with behaviors := muteAllB m e.2.2.behaviors }) else e) } := by
  induction L generalizing s with
  | nil => simp
  | cons j L ih =>
    obtain ⟨hj, hjs⟩ := h j (List.mem_cons_self j L)
    have hstep : (KeyService.setKeyRest s ⟨some j, none, none, none, none, some m, none⟩).1 =
        updateBinding s j (fun b => { b with behaviors := muteAllB m b.behaviors }) := by
      rw [setKeyRest_muteOnly s j m hj hjs]
    have hrec : ∀ i ∈ L, (i == "") = false ∧
        hasId (updateBinding s j (fun b => { b with behaviors := muteAllB m b.behaviors })) (some i) = true := by
      intro i hi
      obtain ⟨h1, h2⟩ := h i (List.mem_cons_of_mem _ hi)
      exact ⟨h1, by rw [hasId_updateBinding]; exact h2⟩
    rw [List.foldl_cons, hstep, ih _ hrec]
    unfold updateBinding
    simp only [List.map_map]
    congr 1
    apply List.map_congr_left
    intro e _
    by_cases hq : e.1 = j <;> by_cases hm : e.1 ∈ L <;>
      simp [Function.comp, hq, hm, List.mem_cons, muteAllB_muteAllB]

/-- The global variant of variant 1's `setKey` (`mute` supplied, no id, no
key) bulk-mutes every binding, provided every stored id is truthy (true in
every reachable state). -/
theorem setKey_globalMute (s : State) (m : Bool)
    (h : ∀ e ∈ s.keyMap, (e.1 == "") = false) :
    KeyService.setKey s ⟨none, none, none, none, none, some m, none⟩ = (muteMapAll m s, none) := by
  unfold KeyService.setKey
  simp only [truthyS, Bool.not_false, Option.isSome_some, Bool.and_self, Bool.and_true, if_true]
  have hL : ∀ i ∈ s.keyMap.map (fun e => e.1), (i == "") = false ∧ hasId s (some i) = true := by
    intro i hi
    obtain ⟨e, he, hei⟩ := List.mem_map.mp hi
    refine ⟨hei ▸ h e he, ?_⟩
    have hfind : (s.keyMap.find? (fun e2 => e2.1 == i)).isSome = true :=
      List.find?_isSome.mpr ⟨e, he, by simp [hei]⟩
    show (lookupId s i).isSome = true
    unfold lookupId
    cases hf : s.keyMap.find? (fun e2 => e2.1 == i) with
    | none => rw [hf] at hfind; simp at hfind
    | some e2 => rfl
  rw [foldMute m _ s hL]
  have hmap : s.keyMap.map (fun e =>
        if e.1 ∈ s.keyMap.map (fun e2 => e2.1) then
          (e.1, e.2.1, { e.2.2 with behaviors := muteAllB m e.2.2.behaviors }) else e) =
      s.keyMap.map (fun e => (e.1, e.2.1, { e.2.2 with behaviors := muteAllB m e.2.2.behaviors })) :=
    List.map_congr_left (fun e he => by simp [List.mem_map_of_mem _ he])
  rw [hmap]
  rfl

end KeyModel

/-- **C7** (amended).  In variant 1 the claim holds: `setKey` with `mute`
supplied and `behaviorId` absent bulk-mutes the addressed binding's whole
behavior table in place (no entry removed), and the global form (no id, no
key, `mute` supplied) applies it to every binding (every reachable state has
only truthy ids).  The amendment is that variant 2 has neither feature: it
validates `mute && !behaviorId` (rejecting `mute: true` without
`behaviorId`) and reports an error on the no-id/no-key form. -/
theorem setKey_bulk_and_global_mute (s : State) (m : Bool) :
    (∀ i : String, i ≠ "" → hasId s (some i) = true →
      KeyService.setKey s ⟨some i, none, none, none, none, some m, none⟩ =
        (updateBinding s i (fun b => { b with behaviors := muteAllB m b.behaviors }), none)) ∧
    ((∀ e ∈ s.keyMap, e.1 ≠ "") →
      KeyService.setKey s ⟨none, none, none, none, none, some m, none⟩ = (muteMapAll m s, none)) := by
  constructor
  · intro i hi hhas
    have hib : (i == "") = false := by simp [hi]
    unfold KeyService.setKey
    simp only [truthyS, hib, Bool.not_false, Bool.not_true, Bool.false_and,
      Bool.false_eq_true, if_false]
    exact setKeyRest_muteOnly s i m hib hhas
  · intro h
    exact setKey_globalMute s m (fun e he => by simp [h e he])

/-- Witness for `setKey_bulk_and_global_mute` at a registry with one binding
`a` holding one behavior. -/
theorem setKey_bulk_and_global_mute_witness :
    KeyService.setKey sampleOneBehavior ⟨some "a", none, none, none, none, some true, none⟩ =
      (updateBinding sampleOneBehavior "a" (fun b => { b with behaviors := muteAllB true b.behaviors }), none) ∧
    KeyService.setKey sampleOneBehavior ⟨none, none, none, none, none, some true, none⟩ =
      (muteMapAll true sampleOneBehavior, none) :=
  ⟨(setKey_bulk_and_global_mute sampleOneBehavior true).1 "a" (by decide) (by decide),
   (setKey_bulk_and_global_mute sampleOneBehavior true).2 (by decide)⟩

/-! ## C8: the capture-overlay exit sequence -/

namespace KeyModel

/-- Lookups through the globally muted table. -/
theorem lookupId_muteMapAll (m : Bool) (s : State) (j : String) :
    lookupId (muteMapAll m s) j =
      (lookupId s j).map (fun rb => (rb.1, { rb.2 with behaviors := muteAllB m rb.2.behaviors })) := by
  unfold lookupId
  have hk : (muteMapAll m s).keyMap =
      s.keyMap.map (fun e => (e.1, e.2.1, { e.2.2 with behaviors := muteAllB m e.2.2.behaviors })) := rfl
  rw [hk, find?_fst_map s.keyMap
    (fun e => (e.1, e.2.1, { e.2.2 with behaviors := muteAllB m e.2.2.behaviors }))
    (fun e => rfl) (fun a => a == j)]
  cases s.keyMap.find? (fun e => e.1 == j) <;> rfl

/-- Global muting preserves the id set. -/
theorem hasId_muteMapAll (m : Bool) (s : State) (o : Option String) :
    hasId (muteMapAll m s) o = hasId s o := by
  cases o with
  | none => rfl
  | some j =>
    show (lookupId (muteMapAll m s) j).isSome = (lookupId s j).isSome
    rw [lookupId_muteMapAll]
    cases lookupId s j <;> rfl

/-- Muting does not change which behavior ids a table holds. -/
theorem any_fst_muteAllB (m : Bool) (l : List (String × BehaviorEntry)) (bid : String) :
    (muteAllB m l).any (fun e => e.1 == bid) = l.any (fun e => e.1 == bid) := by
  unfold muteAllB
  rw [List.any_map]
  rfl

/-- `delKey` with a present id and a present behavior id deletes exactly that
behavior entry and keeps the binding. -/
theorem delKey_behaviorOnly (s : State) (i bid : String)
    (hi : (i == "") = false) (hbid : (bid == "") = false)
    (hhas : hasId s (some i) = true)
    (hbm : ((lookupId s i).map (fun rb => rb.2.behaviors.any (fun e => e.1 == bid))).getD false = true) :
    KeyService.delKey s ⟨some i, none, some bid⟩ =
      (updateBinding s i (fun b =>
        { b with behaviors := b.behaviors.filter (fun e => !(some e.1 == some bid)) }), none) := by
  unfold KeyService.delKey
  simp only [truthyS, hi, hbid, hhas, Bool.not_false, Bool.not_true, Bool.false_and,
    Bool.and_false, Bool.true_and, Bool.and_true, Bool.false_eq_true, if_false, if_true,
    Bool.and_self, hbm]

end KeyModel

/-- **C8** (amended).  The exit sequence fired by the quit behavior unmutes
every behavior of every binding, sets capture-active (`useKeyboard`) to
`false` and resets the capture buffer to `""`, but it deletes only the quit
*behavior* (`behaviorId "quittingKeyboard"`) from the quit binding's table:
the binding `quit` itself, still bound to the quit key, remains in the key
table (second conjunct).  Hypotheses: ids are truthy (every reachable state),
the binding `quit` exists and holds the behavior `quittingKeyboard` (the
state `usingKeyboard` produces). -/
theorem quittingKeyboard_effect (s : State)
    (hids : ∀ e ∈ s.keyMap, e.1 ≠ "")
    (hquit : hasId s (some "quit") = true)
    (hbeh : ((lookupId s "quit").map
      (fun rb => rb.2.behaviors.any (fun e => e.1 == "quittingKeyboard"))).getD false = true) :
    KeyService.quittingKeyboard s =
      { s with
        keyMap := s.keyMap.map (fun e =>
          if e.1 = "quit" then
            (e.1, e.2.1, { e.2.2 with behaviors :=
              (muteAllB false e.2.2.behaviors).filter (fun be => !(some be.1 == some "quittingKeyboard")) })
          else (e.1, e.2.1, { e.2.2 with behaviors := muteAllB false e.2.2.behaviors })),
        useKeyboard := false, keyboardInput := "" } ∧
    hasId (KeyService.quittingKeyboard s) (some "quit") = true := by
  have hids' : ∀ e ∈ s.keyMap, (e.1 == "") = false := fun e he => by simp [hids e he]
  have h1 := setKey_globalMute s false hids'
  have hquit1 : hasId (muteMapAll false s) (some "quit") = true := by
    rw [hasId_muteMapAll]; exact hquit
  have hbeh1 : ((lookupId (muteMapAll false s) "quit").map
      (fun rb => rb.2.behaviors.any (fun e => e.1 == "quittingKeyboard"))).getD false = true := by
    rw [lookupId_muteMapAll]
    cases hlv : lookupId s "quit" with
    | none => rw [hlv] at hbeh; simp at hbeh
    | some rb =>
      rw [hlv] at hbeh
      simp only [Option.map_some', Option.getD_some] at hbeh ⊢
      rw [any_fst_muteAllB]
      exact hbeh
  have h2 := delKey_behaviorOnly (muteMapAll false s) "quit" "quittingKeyboard"
    (by decide) (by decide) hquit1 hbeh1
  have hmain : KeyService.quittingKeyboard s =
      { updateBinding (muteMapAll false s) "quit" (fun b =>
          { b with behaviors := b.behaviors.filter (fun e => !(some e.1 == some "quittingKeyboard")) }) with
        useKeyboard := false, keyboardInput := "" } := by
    show { (KeyService.delKey (KeyService.setKey s ⟨none, none, none, none, none, some false, none⟩).1
            ⟨some "quit", none, some "quittingKeyboard"⟩).1 with
           useKeyboard := false, keyboardInput := "" } = _
    rw [h1, h2]
  constructor
  · rw [hmain]
    have hkm : (updateBinding (muteMapAll false s) "quit" (fun b =>
        { b with behaviors := b.behaviors.filter (fun e => !(some e.1 == some "quittingKeyboard")) })).keyMap =
        s.keyMap.map (fun e =>
          if e.1 = "quit" then
            (e.1, e.2.1, { e.2.2 with behaviors :=
              (muteAllB false e.2.2.behaviors).filter (fun be => !(some be.1 == some "quittingKeyboard")) })
          else (e.1, e.2.1, { e.2.2 with behaviors := muteAllB false e.2.2.behaviors })) := by
      have h3 : (updateBinding (muteMapAll false s) "quit" (fun b =>
          { b with behaviors := b.behaviors.filter (fun e => !(some e.1 == some "quittingKeyboard")) })).keyMap =
          (s.keyMap.map (fun e =>
            (e.1, e.2.1, { e.2.2 with behaviors := muteAllB false e.2.2.behaviors }))).map (fun e =>
              if e.1 == "quit" then
                (e.1, e.2.1, { e.2.2 with
                  behaviors := e.2.2.behaviors.filter (fun be => !(some be.1 == some "quittingKeyboard")) })
              else e) := rfl
      rw [h3, List.map_map]
      apply List.map_congr_left
      intro e _
      by_cases hq : e.1 = "quit" <;> simp [Function.comp, hq]
    rw [State.mk.injEq]
    exact ⟨hkm, rfl, rfl, rfl, rfl, rfl⟩
  · rw [hmain]
    show (lookupId (updateBinding (muteMapAll false s) "quit" (fun b =>
        { b with behaviors := b.behaviors.filter (fun e => !(some e.1 == some "quittingKeyboard")) })) "quit").isSome = true
    rw [lookupId_updateBinding, lookupId_muteMapAll]
    cases hlv : lookupId s "quit" with
    | none =>
      exfalso
      have : (lookupId s "quit").isSome = true := hquit
      rw [hlv] at this
      simp at this
    | some rb => rfl

/-- Witness for `quittingKeyboard_effect`: a fresh service after
`usingKeyboard("Escape")`. -/
theorem quittingKeyboard_effect_witness :
    KeyService.quittingKeyboard (KeyService.usingKeyboard emptyState (some "Escape")) =
      { KeyService.usingKeyboard emptyState (some "Escape") with
        keyMap := (KeyService.usingKeyboard emptyState (some "Escape")).keyMap.map (fun e =>
          if e.1 = "quit" then
            (e.1, e.2.1, { e.2.2 with behaviors :=
              (muteAllB false e.2.2.behaviors).filter (fun be => !(some be.1 == some "quittingKeyboard")) })
          else (e.1, e.2.1, { e.2.2 with behaviors := muteAllB false e.2.2.behaviors })),
        useKeyboard := false, keyboardInput := "" } ∧
    hasId (KeyService.quittingKeyboard (KeyService.usingKeyboard emptyState (some "Escape"))) (some "quit") = true :=
  quittingKeyboard_effect (KeyService.usingKeyboard emptyState (some "Escape"))
    (by decide) (by decide) (by decide)

/-! ## C10: zero delay never blocks -/

/-- **C10** (confirmed).  For a binding with `delay = 0`, `press` mutates
nothing at all — the returned state is the input state, so `block` is never
set and the binding stays dispatchable — and when the binding is not blocked
it fires exactly its unmuted behaviors in table order.  The second conjunct
lifts this to the key-down path: dispatch by the binding's physical key
resolves to the same call. -/
theorem press_zero_delay_never_blocks (s : State) (i : String) (r : Nat) (b : Binding)
    (hi : i ≠ "") (hl : lookupId s i = some (r, b)) (hd : b.delay = 0) :
    KeyService.press s (some i) none =
      some (s, if b.block then []
               else (b.behaviors.filter (fun e => !e.2.mute)).map (fun e => e.2.callback)) ∧
    ∀ k : String, getIdByKey s (some k) = some i →
      KeyService.press s none (some k) = KeyService.press s (some i) none := by
  have hib : (i == "") = false := by simp [hi]
  constructor
  · unfold KeyService.press
    simp only [truthyS, hib, Bool.not_false, if_true, hl, hd]
    cases hb : b.block
    · simp
    · simp
  · intro k hk
    unfold KeyService.press
    simp [truthyS, hk, hib]

/-- Witness for `press_zero_delay_never_blocks`: the sample registry with one
unmuted behavior and `delay = 0`. -/
theorem press_zero_delay_never_blocks_witness :
    KeyService.press sampleOneBehavior (some "a") none = some (sampleOneBehavior, [5]) := by
  have h := (press_zero_delay_never_blocks sampleOneBehavior "a" 0
    { key := some "x", block := false, delay := 0,
      behaviors := [("b1", { mute := false, callback := 5 })] }
    (by decide) rfl rfl).1
  rw [h]
  rfl

/-! ## C4: hold-mode press cycle -/

namespace KeyModel

/-- The registry produced by
`setKey({id, key, delay: -1, behaviorId, behavior})` on the fresh service:
one hold-mode binding, unblocked, with one unmuted behavior. -/
def holdInit (i k bid : String) (f : BehaviorTok) : State :=
  { keyMap := [(i, 0, { key := some k, block := false, delay := -1,
                        behaviors := [(bid, { mute := false, callback := f })] })],
    nextRef := 1, pressedKeys := [], timers := [], useKeyboard := false, keyboardInput := "" }

/-- The same registry while the key is held: `block` is set. -/
def holdBlocked (i k bid : String) (f : BehaviorTok) : State :=
  { keyMap := [(i, 0, { key := some k, block := true, delay := -1,
                        behaviors := [(bid, { mute := false, callback := f })] })],
    nextRef := 1, pressedKeys := [], timers := [], useKeyboard := false, keyboardInput := "" }

end KeyModel

/-- **C4** (confirmed).  For a binding created by `setKey` with `delay = -1`
and one unmuted behavior `f`: the first press of its key fires `f` exactly
once and blocks the binding; a second press while held fires nothing and
changes nothing; the raw key-up clears `block` (back to the initial state);
and the next press fires `f` once again. -/
theorem hold_mode_press_cycle (i k bid : String) (f : BehaviorTok)
    (hi : i ≠ "") (hk : k ≠ "") (hb : bid ≠ "") :
    (KeyService.setKey emptyState ⟨some i, some k, none, some (-1), some bid, none, some f⟩).1 =
      holdInit i k bid f ∧
    KeyService.press (holdInit i k bid f) none (some k) = some (holdBlocked i k bid f, [f]) ∧
    KeyService.press (holdBlocked i k bid f) none (some k) = some (holdBlocked i k bid f, []) ∧
    KeyService.keyup (holdBlocked i k bid f) k = holdInit i k bid f ∧
    KeyService.press (KeyService.keyup (holdBlocked i k bid f) k) none (some k) =
      some (holdBlocked i k bid f, [f]) := by
  have hib : (i == "") = false := by simp [hi]
  have hkb : (k == "") = false := by simp [hk]
  have hbb : (bid == "") = false := by simp [hb]
  have hd1 : ¬((-1 : Int) ≠ 0 ∧ (0 : Int) ≤ -1) := by decide
  have hd2 : ((-1 : Int) ≠ 0 ∧ (-1 : Int) < 0) := by decide
  have hd3 : ((-1 : Int) ≠ 0) := by decide
  have h2 : KeyService.press (holdInit i k bid f) none (some k) =
      some (holdBlocked i k bid f, [f]) := by
    unfold KeyService.press
    simp [truthyS, hib, hkb, getIdByKey, lookupId, updateBinding, holdInit, holdBlocked,
      List.find?, hd1, hd2]
  have h4 : KeyService.keyup (holdBlocked i k bid f) k = holdInit i k bid f := by
    unfold KeyService.keyup
    simp [truthyS, hib, hkb, getIdByKey, lookupId, hasId, updateBinding, holdInit, holdBlocked,
      List.find?, hd3]
  refine ⟨?_, h2, ?_, h4, by rw [h4]; exact h2⟩
  · unfold KeyService.setKey KeyService.setKeyRest
    simp [truthyS, hib, hkb, hbb, setKeyBody, hasId, lookupId, updateBinding, emptyState,
      holdInit, List.find?]
  · unfold KeyService.press
    simp [truthyS, hib, hkb, getIdByKey, lookupId, holdBlocked, List.find?]

/-- Witness for `hold_mode_press_cycle`: the spec's scenario
`{id:"jump", key:" ", delay:-1, behaviorId:"b1", behavior: token 7}`. -/
theorem hold_mode_press_cycle_witness :
    (KeyService.setKey emptyState ⟨some "jump", some " ", none, some (-1), some "b1", none, some 7⟩).1 =
      holdInit "jump" " " "b1" 7 ∧
    KeyService.press (holdInit "jump" " " "b1" 7) none (some " ") =
      some (holdBlocked "jump" " " "b1" 7, [7]) ∧
    KeyService.press (holdBlocked "jump" " " "b1" 7) none (some " ") =
      some (holdBlocked "jump" " " "b1" 7, []) ∧
    KeyService.keyup (holdBlocked "jump" " " "b1" 7) " " = holdInit "jump" " " "b1" 7 ∧
    KeyService.press (KeyService.keyup (holdBlocked "jump" " " "b1" 7) " ") none (some " ") =
      some (holdBlocked "jump" " " "b1" 7, [7]) :=
  hold_mode_press_cycle "jump" " " "b1" 7 (by decide) (by decide) (by decide)

/-! ## C9: stale debounce timers are safe no-ops -/

namespace KeyModel

/-- A timer fire whose captured tuple reference occurs in no live entry
changes nothing. -/
theorem fireTimer_not_mem (s : State) (r : Nat) (h : ∀ e ∈ s.keyMap, e.2.1 ≠ r) :
    KeyService.fireTimer s r = s := by
  unfold KeyService.fireTimer
  have hmap : s.keyMap.map (fun e =>
      if e.2.1 == r then (e.1, e.2.1, { e.2.2 with block := false }) else e) =
      s.keyMap.map id :=
    List.map_congr_left (fun e he => by simp [h e he])
  rw [hmap, List.map_id]

/-- A successful id lookup names an actual table entry. -/
theorem mem_of_lookupId {s : State} {i : String} {r : Nat} {b : Binding}
    (hl : lookupId s i = some (r, b)) : (i, r, b) ∈ s.keyMap := by
  unfold lookupId at hl
  cases hf : s.keyMap.find? (fun e => e.1 == i) with
  | none => rw [hf] at hl; simp at hl
  | some e =>
    rw [hf] at hl
    have h0 := List.find?_some hf
    have h1 : e.1 = i := eq_of_beq h0
    have h2 := List.mem_of_find?_eq_some hf
    have h3 : e.2 = (r, b) := by simpa using hl
    have h4 : e = (i, r, b) := by
      obtain ⟨a, p⟩ := e
      have ha : a = i := h1
      have hp : p = (r, b) := h3
      rw [ha, hp]
    rw [← h4]
    exact h2

/-- `delKey` by a present truthy id with no `behaviorId` removes exactly that
binding. -/
theorem delKey_id (s : State) (i : String) (hi : (i == "") = false)
    (hhas : hasId s (some i) = true) :
    KeyService.delKey s ⟨some i, none, none⟩ =
      ({ s with keyMap := s.keyMap.filter (fun e => !(e.1 == i)) }, none) := by
  unfold KeyService.delKey
  simp only [truthyS, hi, hhas, Bool.not_false, Bool.not_true, Bool.false_and, Bool.and_false,
    Bool.true_and, Bool.and_true, Bool.false_eq_true, if_false, if_true, Bool.and_self]

/-- `updateBinding` keeps every entry's allocation reference. -/
theorem refsOf_updateBinding (s : State) (i : String) (f : Binding → Binding) :
    (updateBinding s i f).keyMap.map (fun e => e.2.1) = s.keyMap.map (fun e => e.2.1) := by
  unfold updateBinding
  rw [List.map_map]
  apply List.map_congr_left
  intro e _
  by_cases h : e.1 = i <;> simp [Function.comp, h]

/-- Every entry of an updated table is an id- and reference-preserving image
of an original entry. -/
theorem mem_updateBinding {s : State} {i : String} {f : Binding → Binding}
    {e : String × Nat × Binding} (he : e ∈ (updateBinding s i f).keyMap) :
    ∃ e0 ∈ s.keyMap, e.1 = e0.1 ∧ e.2.1 = e0.2.1 := by
  unfold updateBinding at he
  simp only [List.mem_map] at he
  obtain ⟨e0, he0, heq⟩ := he
  refine ⟨e0, he0, ?_⟩
  by_cases h : e0.1 = i
  · rw [← heq]; simp [h]
  · rw [← heq]; simp [h]

/-- `setKeyBody` either keeps the reference list or appends the one fresh
reference `s.nextRef` (the insert case). -/
theorem refsOf_setKeyBody (s : State) (o : SetOpts) (j : String) :
    (setKeyBody s o j).keyMap.map (fun e => e.2.1) = s.keyMap.map (fun e => e.2.1) ∨
    (setKeyBody s o j).keyMap.map (fun e => e.2.1) =
      s.keyMap.map (fun e => e.2.1) ++ [s.nextRef] := by
  simp only [setKeyBody]
  repeat' split
  all_goals simp only [refsOf_updateBinding, List.map_append, List.map_cons, List.map_nil]
  all_goals first
    | (left ; rfl)
    | (right ; rfl)
    | exact Or.inl trivial
    | exact Or.inr trivial

/-- `setKeyRest` either keeps the reference list or appends the fresh
reference (validation failures change nothing; the body is
`refsOf_setKeyBody`). -/
theorem refsOf_setKeyRest (u : State) (o : SetOpts) :
    ((KeyService.setKeyRest u o).1).keyMap.map (fun e => e.2.1) = u.keyMap.map (fun e => e.2.1) ∨
    ((KeyService.setKeyRest u o).1).keyMap.map (fun e => e.2.1) =
      u.keyMap.map (fun e => e.2.1) ++ [u.nextRef] := by
  unfold KeyService.setKeyRest
  split
  · exact Or.inl rfl
  · split
    · exact Or.inl rfl
    · split
      · exact Or.inl rfl
      · split
        · exact Or.inl rfl
        · split
          · exact Or.inl rfl
          · exact refsOf_setKeyBody u o _

/-- The state `press` leaves behind after dispatching a debounce binding:
`block` set and the timer recorded with the captured tuple's reference. -/
def pressBlocked (s : State) (i : String) (r : Nat) (d : Int) : State :=
  { (updateBinding s i (fun bb => { bb with block := true })) with
    timers := s.timers ++ [(r, d)] }

/-- A registry with one idle debounce binding (`delay = 100`) used as the
concrete input of the stale-timer witness. -/
def sampleDebounceIdle : State :=
  { keyMap := [("a", 0, { key := some "x", block := false, delay := 100,
                          behaviors := [("b1", { mute := false, callback := 5 })] })],
    nextRef := 1, pressedKeys := [], timers := [], useKeyboard := false, keyboardInput := "" }

end KeyModel

/-- **C9** (confirmed).  Pressing an unblocked debounce binding (`delay > 0`)
schedules a timer carrying the *reference of the captured values tuple*
(second conjunct); if the binding is then deleted by `delKey` and recreated
under the same id by any `setKey` call, the stale timer's fire is the
identity on the whole state: the key table keeps every entry — in particular
the recreated binding, whose fresh tuple the old closure does not alias, does
not have its `block` flag cleared.  Hypotheses: the pressed binding exists
and is unblocked, references are below `nextRef` and pairwise distinct (true
in every reachable state, where references count allocations). -/
theorem stale_timer_safe (s : State) (i : String) (r : Nat) (b : Binding) (o : SetOpts)
    (hi : i ≠ "") (hl : lookupId s i = some (r, b)) (hblock : b.block = false)
    (hdelay : 0 < b.delay)
    (hbound : ∀ e ∈ s.keyMap, e.2.1 < s.nextRef)
    (hnodup : (s.keyMap.map (fun e => e.2.1)).Nodup)
    (ho : o.id = some i) :
    KeyService.press s (some i) none =
      some (pressBlocked s i r b.delay,
        (b.behaviors.filter (fun e => !e.2.mute)).map (fun e => e.2.callback)) ∧
    (pressBlocked s i r b.delay).timers = s.timers ++ [(r, b.delay)] ∧
    KeyService.fireTimer
        ((KeyService.setKey ((KeyService.delKey (pressBlocked s i r b.delay)
          ⟨some i, none, none⟩).1) o).1) r =
      (KeyService.setKey ((KeyService.delKey (pressBlocked s i r b.delay)
        ⟨some i, none, none⟩).1) o).1 := by
  have hib : (i == "") = false := by simp [hi]
  have hc1 : (b.delay ≠ 0 ∧ 0 ≤ b.delay) := ⟨by omega, by omega⟩
  have hc2 : ¬(b.delay ≠ 0 ∧ b.delay < 0) := by omega
  refine ⟨?_, rfl, ?_⟩
  · unfold KeyService.press
    simp only [truthyS, hib, Bool.not_false, if_true, hl, hblock]
    rw [if_pos hc1, if_neg hc2]
    rfl
  · have hlt : lookupId (pressBlocked s i r b.delay) i =
        some (r, { b with block := true }) := by
      show lookupId (updateBinding s i (fun bb => { bb with block := true })) i = _
      rw [lookupId_updateBinding, hl]
      simp
    have hhast : hasId (pressBlocked s i r b.delay) (some i) = true := by
      show (lookupId (pressBlocked s i r b.delay) i).isSome = true
      rw [hlt]
      rfl
    have hdel1 : (KeyService.delKey (pressBlocked s i r b.delay) ⟨some i, none, none⟩).1 =
        { pressBlocked s i r b.delay with
          keyMap := (pressBlocked s i r b.delay).keyMap.filter (fun e => !(e.1 == i)) } := by
      rw [delKey_id (pressBlocked s i r b.delay) i hib hhast]
    have hsk1 : ∀ u : State, (KeyService.setKey u o).1 = (KeyService.setKeyRest u o).1 := by
      intro u
      unfold KeyService.setKey
      rw [ho]
      simp [truthyS, hib]
    have hmem : (i, r, b) ∈ s.keyMap := mem_of_lookupId hl
    have hrlt : r < s.nextRef := hbound (i, r, b) hmem
    -- every reference surviving the delete differs from r
    have hurefs : ∀ x ∈ ((KeyService.delKey (pressBlocked s i r b.delay)
        ⟨some i, none, none⟩).1).keyMap.map (fun e => e.2.1), x ≠ r := by
      rw [hdel1]
      intro x hx
      obtain ⟨eu, heu, hex⟩ := List.mem_map.mp hx
      have heu2 := List.mem_filter.mp heu
      obtain ⟨heu1, heuid⟩ := heu2
      -- eu is a mapped image of an original entry
      have : ∃ e0 ∈ s.keyMap, eu.1 = e0.1 ∧ eu.2.1 = e0.2.1 := by
        have heu1' : eu ∈ (updateBinding s i (fun bb => { bb with block := true })).keyMap := heu1
        exact mem_updateBinding heu1'
      obtain ⟨e0, he0, hid0, href0⟩ := this
      intro hxr
      have he0r : e0.2.1 = r := by rw [← href0, hex, hxr]
      have hinj := List.inj_on_of_nodup_map hnodup
      have : e0 = (i, r, b) := hinj he0 hmem (by rw [he0r])
      have : eu.1 = i := by rw [hid0, this]
      simp [this] at heuid
    -- and the freshly inserted reference differs from r as well
    have hnext : ((KeyService.delKey (pressBlocked s i r b.delay)
        ⟨some i, none, none⟩).1).nextRef = s.nextRef := by
      rw [hdel1]
      rfl
    rw [hsk1]
    apply fireTimer_not_mem
    intro e he
    have hx : e.2.1 ∈ (((KeyService.setKeyRest ((KeyService.delKey (pressBlocked s i r b.delay)
        ⟨some i, none, none⟩).1) o).1).keyMap.map (fun e => e.2.1)) :=
      List.mem_map_of_mem _ he
    rcases refsOf_setKeyRest ((KeyService.delKey (pressBlocked s i r b.delay)
        ⟨some i, none, none⟩).1) o with hcase | hcase
    · rw [hcase] at hx
      exact hurefs _ hx
    · rw [hcase] at hx
      rcases List.mem_append.mp hx with hx1 | hx1
      · exact hurefs _ hx1
      · have : e.2.1 = s.nextRef := by
          have := List.mem_singleton.mp hx1
          rw [this, hnext]
        omega

/-- Witness for `stale_timer_safe`: press the idle debounce binding `a`
(`delay = 100`), delete it, recreate it under the same id, and fire the stale
timer (reference `0`). -/
theorem stale_timer_safe_witness :
    KeyService.press sampleDebounceIdle (some "a") none =
      some (pressBlocked sampleDebounceIdle "a" 0 100, [5]) ∧
    KeyService.fireTimer
        ((KeyService.setKey ((KeyService.delKey (pressBlocked sampleDebounceIdle "a" 0 100)
          ⟨some "a", none, none⟩).1) ⟨some "a", some "x", none, some 100, none, none, none⟩).1) 0 =
      (KeyService.setKey ((KeyService.delKey (pressBlocked sampleDebounceIdle "a" 0 100)
        ⟨some "a", none, none⟩).1) ⟨some "a", some "x", none, some 100, none, none, none⟩).1 := by
  have h := stale_timer_safe sampleDebounceIdle "a" 0
    { key := some "x", block := false, delay := 100,
      behaviors := [("b1", { mute := false, callback := 5 })] }
    ⟨some "a", some "x", none, some 100, none, none, none⟩
    (by decide) rfl rfl (by decide) (by decide) (by decide) rfl
  refine ⟨?_, h.2.2⟩
  rw [h.1]
  rfl

/-! ## C2: the amended uniqueness invariant -/

namespace KeyModel

/-- The id/key skeleton of the table: all that `UniqKeys` and `IdsNodup`
depend on. -/
def idKeys (s : State) : List (String × Option String) :=
  s.keyMap.map (fun e => (e.1, e.2.2.key))

theorem keyCount_idKeys (s : State) (k : String) :
    keyCount s k = (idKeys s).countP (fun p => p.2 == some k) := by
  unfold keyCount idKeys
  rw [List.countP_map]
  rfl

theorem ids_idKeys (s : State) :
    s.keyMap.map (fun e => e.1) = (idKeys s).map Prod.fst := by
  unfold idKeys
  rw [List.map_map]
  rfl

/-- The combined invariant carried through call sequences. -/
def Inv (s : State) : Prop := UniqKeys s ∧ IdsNodup s

theorem Inv_of_idKeys_eq {s t : State} (h : idKeys t = idKeys s) (hI : Inv s) : Inv t := by
  obtain ⟨hU, hN⟩ := hI
  constructor
  · intro k hk
    rw [keyCount_idKeys, h, ← keyCount_idKeys]
    exact hU k hk
  · unfold IdsNodup at *
    rw [ids_idKeys, h, ← ids_idKeys]
    exact hN

/-- A behaviors-only in-place update does not change the skeleton. -/
theorem idKeys_updateBinding_beh (t : State) (j : String)
    (h : Binding → List (String × BehaviorEntry)) :
    idKeys (updateBinding t j (fun b => { b with behaviors := h b })) = idKeys t := by
  unfold idKeys updateBinding
  simp only [List.map_map]
  apply List.map_congr_left
  intro e _
  by_cases hq : e.1 = j <;> simp [Function.comp, hq]

/-- The binding-merge write (`if (key) values.key = key` plus `block`/`delay`
writes) transforms the skeleton pointwise at id `j`. -/
theorem idKeys_updateBinding_setkey (t : State) (j : String) (ko : Option String)
    (g : Binding → Bool) (d : Binding → Int) :
    idKeys (updateBinding t j (fun b =>
      { key := if truthyS ko then ko else b.key, block := g b, delay := d b,
        behaviors := b.behaviors })) =
    (idKeys t).map (fun p => if p.1 = j then (p.1, if truthyS ko then ko else p.2) else p) := by
  unfold idKeys updateBinding
  simp only [List.map_map]
  apply List.map_congr_left
  intro e _
  by_cases hq : e.1 = j <;> simp [Function.comp, hq]

/-- The binding-merge write with a constant new key value. -/
theorem idKeys_updateBinding_kval (t : State) (j : String) (ko : Option String)
    (g : Binding → Bool) (d : Binding → Int) :
    idKeys (updateBinding t j (fun b =>
      { key := ko, block := g b, delay := d b, behaviors := b.behaviors })) =
    (idKeys t).map (fun p => if p.1 = j then (p.1, ko) else p) := by
  unfold idKeys updateBinding
  simp only [List.map_map]
  apply List.map_congr_left
  intro e _
  by_cases hq : e.1 = j <;> simp [Function.comp, hq]

/-- The binding-merge write that leaves the key untouched. -/
theorem idKeys_updateBinding_keyfix2 (t : State) (j : String)
    (g : Binding → Bool) (d : Binding → Int) :
    idKeys (updateBinding t j (fun b =>
      { key := b.key, block := g b, delay := d b, behaviors := b.behaviors })) = idKeys t := by
  unfold idKeys updateBinding
  simp only [List.map_map]
  apply List.map_congr_left
  intro e _
  by_cases hq : e.1 = j <;> simp [Function.comp, hq]

/-- Mapping the skeleton with an update that rewrites nothing is the
identity. -/
theorem map_if_self (j : String) (L : List (String × Option String)) :
    L.map (fun p => if p.1 = j then (p.1, p.2) else p) = L := by
  have h : L.map (fun p => if p.1 = j then (p.1, p.2) else p) = L.map id :=
    List.map_congr_left (fun p _ => by
      by_cases hq : p.1 = j
      · rw [if_pos hq]
        exact Prod.mk.eta
      · exact if_neg hq)
  rw [h, List.map_id]

/-- Skeleton of `setKeyBody` when the effective id exists (merge path). -/
theorem idKeys_setKeyBody_pos (s : State) (o : SetOpts) (j : String)
    (hh : hasId s (some j) = true) :
    idKeys (setKeyBody s o j) =
      (idKeys s).map (fun p =>
        if p.1 = j then (p.1, if truthyS o.key then o.key else p.2) else p) := by
  simp only [setKeyBody, hh, if_true]
  repeat' split
  all_goals try simp only [idKeys_updateBinding_beh]
  all_goals first
    | rw [idKeys_updateBinding_setkey]
    | rw [idKeys_updateBinding_kval]
    | rw [idKeys_updateBinding_keyfix2, map_if_self]
    | rw [map_if_self]

/-- Skeleton of `setKeyBody` when the effective id is new (insert path). -/
theorem idKeys_setKeyBody_neg (s : State) (o : SetOpts) (j : String)
    (hh : hasId s (some j) = false) :
    idKeys (setKeyBody s o j) = idKeys s ++ [(j, o.key)] := by
  simp only [setKeyBody, hh, Bool.false_eq_true, if_false]
  repeat' split
  all_goals try simp only [idKeys_updateBinding_beh]
  all_goals simp [idKeys, List.map_append]

/-- An absent id occurs in no skeleton entry. -/
theorem not_mem_fst_idKeys (s : State) (j : String) (hh : hasId s (some j) = false) :
    j ∉ (idKeys s).map Prod.fst := by
  rw [← ids_idKeys]
  intro hmem
  obtain ⟨e, he, hej⟩ := List.mem_map.mp hmem
  have h2 : (s.keyMap.find? (fun e2 => e2.1 == j)).isSome = true :=
    List.find?_isSome.mpr ⟨e, he, by simp [hej]⟩
  have h3 : hasId s (some j) = true := by
    show (lookupId s j).isSome = true
    unfold lookupId
    cases hf : s.keyMap.find? (fun e2 => e2.1 == j)
    · rw [hf] at h2; simp at h2
    · rfl
  rw [hh] at h3
  simp at h3

end KeyModel

namespace KeyModel

/-- Two distinct members satisfying a predicate force a count of at least
two. -/
theorem two_le_countP {α : Type} (p : α → Bool) {l : List α} {x y : α}
    (hx : x ∈ l) (hy : y ∈ l) (hxy : x ≠ y) (hpx : p x = true) (hpy : p y = true) :
    2 ≤ l.countP p := by
  induction l with
  | nil => cases hx
  | cons a t ih =>
    rw [List.countP_cons]
    rcases List.mem_cons.mp hx with rfl | hx2
    · rcases List.mem_cons.mp hy with h | hy2
      · exact absurd h.symm hxy
      · have h1 : 0 < t.countP p := List.countP_pos_iff.mpr ⟨y, hy2, hpy⟩
        simp only [hpx, if_true]
        omega
    · rcases List.mem_cons.mp hy with rfl | hy2
      · have h1 : 0 < t.countP p := List.countP_pos_iff.mpr ⟨x, hx2, hpx⟩
        simp only [hpy, if_true]
        omega
      · have h1 := ih hx2 hy2
        omega

/-- In a skeleton with pairwise-distinct ids, at most one entry has a given
id. -/
theorem countP_fst_le_one {L : List (String × Option String)}
    (hN : (L.map Prod.fst).Nodup) (j : String) :
    L.countP (fun p => p.1 == j) ≤ 1 := by
  have h1 : L.countP (fun p => p.1 == j) = (L.map Prod.fst).countP (fun x => x == j) := by
    rw [List.countP_map]
    rfl
  rw [h1, ← List.count_eq_countP]
  exact List.nodup_iff_count_le_one.mp hN j

/-- The merge write preserves key-uniqueness and id-distinctness of the
skeleton, provided no entry other than `j`'s already holds the written
key. -/
theorem listInv_update (L : List (String × Option String)) (j : String) (ko : Option String)
    (hU : ∀ k : String, k ≠ "" → L.countP (fun p => p.2 == some k) ≤ 1)
    (hN : (L.map Prod.fst).Nodup)
    (hgood : ∀ k, ko = some k → k ≠ "" → ∀ p ∈ L, p.2 = some k → p.1 = j) :
    (∀ k : String, k ≠ "" →
      ((L.map (fun p => if p.1 = j then (p.1, if truthyS ko then ko else p.2) else p)).countP
        (fun p => p.2 == some k)) ≤ 1) ∧
    ((L.map (fun p => if p.1 = j then (p.1, if truthyS ko then ko else p.2) else p)).map
      Prod.fst).Nodup := by
  constructor
  · intro k hk
    rw [List.countP_map]
    by_cases ht : truthyS ko = true
    · obtain ⟨k0, hk0⟩ : ∃ k0, ko = some k0 := by
        cases ko with
        | none => simp [truthyS] at ht
        | some v => exact ⟨v, rfl⟩
      have ht0 : truthyS (some k0) = true := hk0 ▸ ht
      by_cases hkk : k = k0
      · subst hkk
        have hcong : L.countP ((fun p => p.2 == some k) ∘
            (fun p => if p.1 = j then (p.1, if truthyS ko then ko else p.2) else p)) =
            L.countP (fun p => p.1 == j) := by
          apply List.countP_congr
          intro p hp
          by_cases hpj : p.1 = j
          · simp [Function.comp, hpj, hk0, ht0]
          · constructor
            · intro hpk
              have hp2 : p.2 = some k := by
                simp [Function.comp, hpj] at hpk
                simpa using hpk
              exact absurd (hgood k hk0 hk p hp hp2) hpj
            · intro hpj2
              have : p.1 = j := by simpa using hpj2
              exact absurd this hpj
        rw [hcong]
        exact countP_fst_le_one hN j
      · have hmono : L.countP ((fun p => p.2 == some k) ∘
            (fun p => if p.1 = j then (p.1, if truthyS ko then ko else p.2) else p)) ≤
            L.countP (fun p => p.2 == some k) := by
          apply List.countP_mono_left
          intro p hp hpred
          by_cases hpj : p.1 = j
          · exfalso
            simp [Function.comp, hpj, hk0, ht0] at hpred
            exact hkk hpred.symm
          · simpa [Function.comp, hpj] using hpred
        exact le_trans hmono (hU k hk)
    · have hcong : L.countP ((fun p => p.2 == some k) ∘
          (fun p => if p.1 = j then (p.1, if truthyS ko then ko else p.2) else p)) =
          L.countP (fun p => p.2 == some k) := by
        apply List.countP_congr
        intro p hp
        by_cases hpj : p.1 = j <;>
          simp [Function.comp, hpj, ht]
      rw [hcong]
      exact hU k hk
  · rw [List.map_map]
    have h : L.map (Prod.fst ∘
        (fun p => if p.1 = j then (p.1, if truthyS ko then ko else p.2) else p)) =
        L.map Prod.fst := by
      apply List.map_congr_left
      intro p _
      by_cases hpj : p.1 = j <;> simp [Function.comp, hpj]
    rw [h]
    exact hN

/-- Inserting a fresh id preserves key-uniqueness and id-distinctness of the
skeleton, provided no other entry already holds the inserted key. -/
theorem listInv_append (L : List (String × Option String)) (j : String) (ko : Option String)
    (hU : ∀ k : String, k ≠ "" → L.countP (fun p => p.2 == some k) ≤ 1)
    (hN : (L.map Prod.fst).Nodup)
    (hj : j ∉ L.map Prod.fst)
    (hgood : ∀ k, ko = some k → k ≠ "" → ∀ p ∈ L, p.2 = some k → p.1 = j) :
    (∀ k : String, k ≠ "" → ((L ++ [(j, ko)]).countP (fun p => p.2 == some k)) ≤ 1) ∧
    (((L ++ [(j, ko)]).map Prod.fst).Nodup) := by
  constructor
  · intro k hk
    rw [List.countP_append]
    by_cases hko : ko = some k
    · have h0 : L.countP (fun p => p.2 == some k) = 0 := by
        rw [List.countP_eq_zero]
        intro p hp hpk
        have hp2 : p.2 = some k := by simpa using hpk
        have hpj : p.1 = j := hgood k hko hk p hp hp2
        exact hj (hpj ▸ List.mem_map_of_mem Prod.fst hp)
      rw [h0]
      simp [List.countP_cons, hko]
    · have h1 : (([(j, ko)] : List (String × Option String)).countP
          (fun p => p.2 == some k)) = 0 := by
        simp [List.countP_cons, hko]
      rw [h1]
      have h2 := hU k hk
      omega
  · rw [List.map_append, List.nodup_append]
    refine ⟨hN, by simp, ?_⟩
    intro a ha hb
    have : a = j := by simpa using hb
    subst this
    exact hj ha

end KeyModel

namespace KeyModel

/-- Under the uniqueness invariant, every entry carrying key `k` has the id
that `getIdByKey` resolves for `k`. -/
theorem getIdByKey_unique (s : State) (k : String) (hk : k ≠ "") (hU : UniqKeys s)
    (j : String) (hj : getIdByKey s (some k) = some j) :
    ∀ e ∈ s.keyMap, e.2.2.key = some k → e.1 = j := by
  intro e he hek
  unfold getIdByKey at hj
  cases hf : s.keyMap.find? (fun e2 => e2.2.2.key == some k) with
  | none => rw [hf] at hj; simp at hj
  | some e0 =>
    rw [hf] at hj
    have hj0 : e0.1 = j := by simpa using hj
    have he0 := List.mem_of_find?_eq_some hf
    have hp0 := List.find?_some hf
    by_cases heq : e = e0
    · rw [heq, hj0]
    · exfalso
      have h2 : 2 ≤ s.keyMap.countP (fun e2 => e2.2.2.key == some k) :=
        two_le_countP _ he he0 heq (by simp [hek]) hp0
      have h1 := hU k hk
      unfold keyCount at h1
      omega

/-- The shared `setKey` body preserves the invariant when every entry already
holding the written key has the effective id. -/
theorem inv_setKeyBody (s : State) (o : SetOpts) (j : String) (hI : Inv s)
    (hgood : ∀ k, o.key = some k → k ≠ "" → ∀ e ∈ s.keyMap, e.2.2.key = some k → e.1 = j) :
    Inv (setKeyBody s o j) := by
  obtain ⟨hU, hN⟩ := hI
  have hUL : ∀ k : String, k ≠ "" → (idKeys s).countP (fun p => p.2 == some k) ≤ 1 := by
    intro k hk
    rw [← keyCount_idKeys]
    exact hU k hk
  have hNL : ((idKeys s).map Prod.fst).Nodup := by
    rw [← ids_idKeys]
    exact hN
  have hgoodL : ∀ k, o.key = some k → k ≠ "" → ∀ p ∈ idKeys s, p.2 = some k → p.1 = j := by
    intro k h1 h2 p hp hpk
    obtain ⟨e, he, hep⟩ := List.mem_map.mp hp
    have hek : e.2.2.key = some k := by
      rw [← hep] at hpk
      exact hpk
    have h3 := hgood k h1 h2 e he hek
    rw [← hep]
    exact h3
  cases hh : hasId s (some j) with
  | true =>
    have hchar := idKeys_setKeyBody_pos s o j hh
    have hres := listInv_update (idKeys s) j o.key hUL hNL hgoodL
    constructor
    · intro k hk
      rw [keyCount_idKeys, hchar]
      exact hres.1 k hk
    · unfold IdsNodup
      rw [ids_idKeys, hchar]
      exact hres.2
  | false =>
    have hchar := idKeys_setKeyBody_neg s o j hh
    have hres := listInv_append (idKeys s) j o.key hUL hNL (not_mem_fst_idKeys s j hh) hgoodL
    constructor
    · intro k hk
      rw [keyCount_idKeys, hchar]
      exact hres.1 k hk
    · unfold IdsNodup
      rw [ids_idKeys, hchar]
      exact hres.2

/-- `setKeyRest` preserves the invariant for good calls. -/
theorem inv_setKeyRest (s : State) (o : SetOpts) (hI : Inv s)
    (hg : goodCall s (Call.setK o) = true) :
    Inv ((KeyService.setKeyRest s o).1) := by
  unfold KeyService.setKeyRest
  split
  · exact hI
  · split
    · exact hI
    · split
      · exact hI
      · split
        · exact hI
        · split
          · exact hI
          · rename_i j heq
            apply inv_setKeyBody s o j hI
            intro k hok hk e he hek
            by_cases hti : truthyS o.id = true
            · have hoid : o.id = some j := by
                rw [if_pos hti] at heq
                exact heq
              have htk : truthyS o.key = true := by
                rw [hok]
                simp [truthyS, hk]
              have hany : s.keyMap.any
                  (fun e2 => e2.2.2.key == o.key && !(some e2.1 == o.id)) = false := by
                unfold goodCall at hg
                simp only [Bool.not_eq_true'] at hg
                rw [hti, htk] at hg
                simpa using hg
              have hfe := List.any_eq_false.mp hany e he
              by_contra hne
              apply hfe
              rw [Bool.and_eq_true]
              constructor
              · rw [hek, hok]
                simp
              · rw [hoid]
                simp [hne]
            · have hjk : getIdByKey s o.key = some j := by
                rw [if_neg hti] at heq
                exact heq
              rw [hok] at hjk
              exact getIdByKey_unique s k hk hI.1 j hjk e he hek

/-- Removing entries preserves the invariant. -/
theorem inv_filterState (s : State) (p : String × Nat × Binding → Bool) (hI : Inv s) :
    Inv { s with keyMap := s.keyMap.filter p } := by
  obtain ⟨hU, hN⟩ := hI
  constructor
  · intro k hk
    have hle : (s.keyMap.filter p).countP (fun e => e.2.2.key == some k) ≤
        s.keyMap.countP (fun e => e.2.2.key == some k) := by
      rw [List.countP_filter]
      apply List.countP_mono_left
      intro e _ h2
      rw [Bool.and_eq_true] at h2
      exact h2.1
    exact le_trans hle (hU k hk)
  · exact List.Nodup.sublist (List.Sublist.map _ (List.filter_sublist _)) hN

/-- `delKey` always preserves the invariant. -/
theorem inv_delKey (s : State) (o : DelOpts) (hI : Inv s) :
    Inv ((KeyService.delKey s o).1) := by
  simp only [KeyService.delKey]
  repeat' split
  all_goals first
    | exact hI
    | exact inv_filterState s _ hI
    | exact Inv_of_idKeys_eq (idKeys_updateBinding_beh _ _ _) hI

/-- `setKey` preserves the invariant for good calls (the global-mute branch
needs no goodness: its recursive calls carry no key). -/
theorem inv_setKey (s : State) (o : SetOpts) (hI : Inv s)
    (hg : goodCall s (Call.setK o) = true) : Inv ((KeyService.setKey s o).1) := by
  unfold KeyService.setKey
  split
  · have hfold : ∀ (L : List String) (t : State), Inv t →
        Inv (L.foldl (fun st i =>
          (KeyService.setKeyRest st ⟨some i, none, none, none, none, o.mute, none⟩).1) t) := by
      intro L
      induction L with
      | nil => intro t ht; exact ht
      | cons a L ih =>
        intro t ht
        rw [List.foldl_cons]
        apply ih
        apply inv_setKeyRest t ⟨some a, none, none, none, none, o.mute, none⟩ ht
        simp [goodCall, truthyS]
    exact hfold _ s hI
  · exact inv_setKeyRest s o hI hg

/-- One good call preserves the invariant. -/
theorem inv_runCall (s : State) (c : Call) (hI : Inv s) (hg : goodCall s c = true) :
    Inv (runCall s c) := by
  cases c with
  | setK o => exact inv_setKey s o hI hg
  | delK o => exact inv_delKey s o hI

/-- A good call sequence preserves the invariant. -/
theorem inv_runCalls (cs : List Call) :
    ∀ s : State, Inv s → goodCalls s cs = true → Inv (runCalls s cs) := by
  induction cs with
  | nil =>
    intro s hI _
    exact hI
  | cons c cs ih =>
    intro s hI hg
    simp only [goodCalls, Bool.and_eq_true] at hg
    have h1 : Inv (runCall s c) := inv_runCall s c hI hg.1
    show Inv (runCalls (runCall s c) cs)
    exact ih (runCall s c) h1 hg.2

end KeyModel

/-- **C2** (amended).  After every sequence of `setKey`/`delKey` calls from
the empty registry in which no `setKey` call supplies both an explicit
(truthy) id and a key already bound to a *different* id (`goodCalls`), at
most one binding holds any given non-empty physical key.  The restriction is
exactly what the counterexample forces: `setKey({id, key})` with a fresh id
and an already-bound key inserts a duplicate, so uniqueness is enforced at
insertion/merge only for key-resolved and non-colliding calls. -/
theorem uniqueKey_invariant_of_goodCalls (cs : List Call)
    (h : goodCalls emptyState cs = true) :
    UniqKeys (runCalls emptyState cs) := by
  have hI : Inv emptyState := by
    constructor
    · intro k _
      show ([] : List (String × Nat × Binding)).countP (fun e => e.2.2.key == some k) ≤ 1
      simp
    · show (([] : List (String × Nat × Binding)).map (fun e => e.1)).Nodup
      simp
  exact (inv_runCalls cs emptyState hI h).1

/-- Witness for `uniqueKey_invariant_of_goodCalls`: binding two different
keys under two ids and deleting one is a good sequence, and uniqueness holds
at its end. -/
theorem uniqueKey_invariant_witness :
    goodCalls emptyState
      [Call.setK ⟨some "a", some "x", none, none, none, none, none⟩,
       Call.setK ⟨some "b", some "y", none, none, none, none, none⟩,
       Call.delK ⟨some "a", none, none⟩] = true ∧
    UniqKeys (runCalls emptyState
      [Call.setK ⟨some "a", some "x", none, none, none, none, none⟩,
       Call.setK ⟨some "b", some "y", none, none, none, none, none⟩,
       Call.delK ⟨some "a", none, none⟩]) :=
  ⟨by decide, uniqueKey_invariant_of_goodCalls _ (by decide)⟩
